import Mathlib

/-!
Shallow embedding of `heat/cluster/kmedians.py` (class `KMedians`):
the centroid updater `_update_centroids` and the Lloyd iteration `fit`.

Matrices are lists of rows of rationals; a distributed `DNDarray` is its
global row list together with its column count and the per-worker row
counts of its row partition.  External collaborators that are not part of
this file's source (`ht.median`, `ht.random.randint`, the assignment
oracle `_assign_to_cluster` and the initializer
`_initialize_cluster_centers`) are modelled from the spec, as noted on
each definition.
-/

namespace KMediansModel

abbrev Row := List ℚ

abbrev Mat := List Row

/-- A distributed matrix (`ht.DNDarray` split along axis 0): the global rows,
the column count (`shape[1]`), and the per-worker local row counts
(`comm.counts_displs_shape`'s counts). -/
structure DMat where
  rows : Mat
  cols : ℕ
  counts : List ℕ
deriving Repr, DecidableEq

/-- Well-formedness of a distributed matrix: every row has `cols` entries and
the partition's counts add up to the number of rows. -/
def DMat.wf (X : DMat) : Prop :=
  (∀ r ∈ X.rows, r.length = X.cols) ∧ X.counts.sum = X.rows.length

instance (X : DMat) : Decidable X.wf := by
  unfold DMat.wf; infer_instance

/-- The per-worker row offsets (`displ` of `counts_displs_shape`): worker `p`
starts at the sum of the counts of workers before it. -/
def displs : List ℕ → ℕ → List ℕ
  | [], _ => []
  | c :: rest, off => off :: displs rest (off + c)

/-- The owner-resolution loop of the empty-cluster fallback:
`proc = 0; for p in range(size): if displ[p] > sample: break; proc = p`. -/
def ownerGo (s : ℕ) : ℕ → ℕ → List ℕ → ℕ
  | _, proc, [] => proc
  | p, proc, d :: rest => if s < d then proc else ownerGo s (p + 1) p rest

/-- Index of the worker owning global row `s` as computed by the source loop. -/
def ownerProc (displ : List ℕ) (s : ℕ) : ℕ :=
  ownerGo s 0 0 displ

/-- Worker `p`'s local rows (`X.lloc`): the contiguous block of the global
rows determined by the partition counts. -/
def llocRows : Mat → List ℕ → ℕ → Mat
  | _, [], _ => []
  | rows, c :: _, 0 => rows.take c
  | rows, c :: rest, p + 1 => llocRows (rows.drop c) rest p

/-- The empty-cluster fallback row for a drawn global index `s`
(`kmedians.py` lines 63-74): resolve the owning worker from the offset
table, materialize the local row `s - displ[proc]` there, and broadcast it.
The broadcast makes the owner's row the value seen by every worker; on
non-owners the pre-broadcast buffer is `ht.zeros(X.shape[1])`, which is the
default used when the local index is out of range. -/
def fallbackRow (X : DMat) (s : ℕ) : Row :=
  (llocRows X.rows X.counts (ownerProc (displs X.counts 0) s)).getD
    (s - (displs X.counts 0).getD (ownerProc (displs X.counts 0) s) 0)
    (List.replicate X.cols 0)

/-- Insertion of an element into a sorted list of rationals. -/
def insertSorted (a : ℚ) : List ℚ → List ℚ
  | [] => [a]
  | b :: rest => if a ≤ b then a :: b :: rest else b :: insertSorted a rest

/-- Insertion sort on rationals. -/
def sortQ : List ℚ → List ℚ
  | [] => []
  | a :: rest => insertSorted a (sortQ rest)

/-- Modelled from the spec: the median reducer `ht.median` (an external
collaborator, not under this file's source) applied to one column: the
middle element of the sorted values, or the mean of the two middle elements
for an even count. -/
def median1 (l : List ℚ) : ℚ :=
  let s := sortQ l
  if l.length % 2 = 1 then s.getD (l.length / 2) 0
  else (s.getD (l.length / 2 - 1) 0 + s.getD (l.length / 2) 0) / 2

/-- Modelled from the spec: `ht.median(clean, axis=0, keepdim=True)`, the
coordinate-wise median of a set of rows — entry `j` is the median of
column `j`. -/
def medianRow (cols : ℕ) (rows : Mat) : Row :=
  (List.range cols).map fun j => median1 (rows.map fun r => r.getD j 0)

/-- Sum of absolute values of a row (`assigned_points.abs().sum(axis=1)`). -/
def absSum (r : Row) : ℚ :=
  (r.map (fun x => |x|)).sum

/-- The masking factor `(matching_centroids == i).astype(ht.int64)` for one
row's label. -/
def maskVal (l i : ℕ) : ℚ :=
  if l = i then 1 else 0

/-- The masked matrix `X * selection`: each row multiplied entrywise by its
0/1 mask. -/
def maskedRows (X : DMat) (labels : List ℕ) (i : ℕ) : Mat :=
  (X.rows.zip labels).map fun rl => rl.1.map (· * maskVal rl.2 i)

/-- The surviving rows for cluster `i` (`kmedians.py` lines 53-59): the rows
of the masked matrix whose absolute-value sum is non-zero.  `balance_()`
and the later `resplit_` only repartition and do not change the global
content, so the global content of `clean` is this list. -/
def survivorsSrc (X : DMat) (labels : List ℕ) (i : ℕ) : Mat :=
  (maskedRows X labels i).filter fun r => decide (absSum r ≠ 0)

/-- The new center row for cluster `i`: the fallback row at the drawn index
when no point survived, the coordinate-wise median of the survivors
otherwise.  `sampler i` models the `ht.random.randint(0, X.shape[0])` draw
made while processing cluster `i` (random number generation is an external
collaborator; the spec only promises a uniform integer in `[0, N)` agreed
by all workers). -/
def centerRowFor (X : DMat) (labels : List ℕ) (sampler : ℕ → ℕ) (i : ℕ) : Row :=
  let surv := survivorsSrc X labels i
  if surv.length = 0 then fallbackRow X (sampler i)
  else medianRow X.cols surv

/-- `_update_centroids`: copy the previous centers and overwrite row `i` with
cluster `i`'s new center for every `i` in `range(n_clusters)`. -/
def updateCentroids (K : ℕ) (X : DMat) (labels : List ℕ) (prev : Mat)
    (sampler : ℕ → ℕ) : Mat :=
  (List.range K).foldl (fun acc i => acc.set i (centerRowFor X labels sampler i)) prev

/-- Entrywise `(A - B) ** 2` followed by `.sum()`: the inertia computation of
`fit` (line 111). -/
def sqDiffSum (A B : Mat) : ℚ :=
  ((A.zip B).map fun rr => ((rr.1.zip rr.2).map fun ab => (ab.1 - ab.2) ^ 2).sum).sum

/-- The collaborators `fit` consumes, modelled from the spec: the assignment
oracle `_assign_to_cluster` (a pure function from data and centers to
per-row labels), the initializer `_initialize_cluster_centers` (opaque
beyond producing a K×D matrix), and the random sampler (for epoch `e` and
cluster `i`, the value `ht.random.randint(0, X.shape[0])` would return in
epoch `e` while processing cluster `i`). -/
structure FitEnv where
  assign : DMat → Mat → List ℕ
  initCenters : DMat → Mat
  sampler : ℕ → ℕ → ℕ

/-- The configuration and mutable attributes of a `KMedians` object that
`fit` reads and writes. -/
structure KMState where
  n_clusters : ℕ
  max_iter : ℕ
  tol : Option ℚ
  inertia0 : Option ℚ

/-- The loop-carried state of one `fit` execution. -/
structure LoopState where
  centers : Mat
  labels : List ℕ
  n_iter : ℕ
  inertia : Option ℚ
deriving Repr, DecidableEq

/-- One pass of the `fit` loop body (lines 104-112): increment the counter,
reassign, update the centroids, and compute the inertia.  The epoch index
used to consult the sampler is the pre-increment iteration count. -/
def fitPass (env : FitEnv) (K : ℕ) (X : DMat) (st : LoopState) : LoopState :=
  let labels := env.assign X st.centers
  let newC := updateCentroids K X labels st.centers (env.sampler st.n_iter)
  let inertia := sqDiffSum st.centers newC
  { centers := newC, labels := labels, n_iter := st.n_iter + 1, inertia := some inertia }

/-- The `for epoch in range(max_iter)` loop with the tolerance break
(lines 102-114).  Also returns the chronological list of the inertia
values computed by the executed passes, so that the number of passes and
their convergence values are observable. -/
def fitLoop (env : FitEnv) (K : ℕ) (X : DMat) (tol : Option ℚ) :
    ℕ → LoopState → LoopState × List ℚ
  | 0, st => (st, [])
  | fuel + 1, st =>
    let st' := fitPass env K X st
    let I := st'.inertia.getD 0
    match tol with
    | some t =>
      if I ≤ t then (st', [I])
      else
        let r := fitLoop env K X (some t) fuel st'
        (r.1, I :: r.2)
    | none =>
      let r := fitLoop env K X none fuel st'
      (r.1, I :: r.2)

/-- The state of `fit` just before the loop (lines 98-100): freshly
initialized centers, iteration count 0, all-zero label vector (one entry
per data row), and the pre-`fit` inertia attribute. -/
def initState (env : FitEnv) (m : KMState) (X : DMat) : LoopState :=
  { centers := env.initCenters X
    labels := List.replicate X.rows.length 0
    n_iter := 0
    inertia := m.inertia0 }

/-- The body of `fit` after the input-type check (lines 98-118): initialize
the centers, zero the iteration counter and the label vector, run the
loop, and expose the final attributes. -/
def fitCore (env : FitEnv) (m : KMState) (X : DMat) : LoopState × List ℚ :=
  fitLoop env m.n_clusters X m.tol m.max_iter (initState env m X)

/-- A Python value passed to `fit`: either a `ht.DNDarray` or some other
object, of which only the type name matters to the check. -/
inductive FitInput where
  | dnd (X : DMat)
  | other (tyName : String)

/-- `fit` including the input sanitation (lines 94-95): a non-`DNDarray`
argument raises before anything else runs, and the object state is
returned unchanged alongside the error. -/
def fitPy (env : FitEnv) (m : KMState) (inp : FitInput) :
    KMState × Except String (LoopState × List ℚ) :=
  match inp with
  | .other t => (m, .error ("input needs to be a ht.DNDarray, but was " ++ t))
  | .dnd X => (m, .ok (fitCore env m X))

/-! ### Object-level (heap) model for the aliasing claims

Arrays live in a heap of matrices addressed by allocation order; `copy()`
allocates a fresh cell, slice assignment writes one cell in place.  This
makes it observable which cells `_update_centroids` and the loop body
write. -/

abbrev Heap := List Mat

/-- `_update_centroids` at the object level: `new_cluster_centers =
self._cluster_centers.copy()` allocates a fresh cell initialized from the
cell `pr` of the previous centers, and each cluster's branch writes row
`i` of that fresh cell; the data cell `xr` is only read (re-read from the
heap on every iteration). -/
def updateCentroidsHeap (K cols : ℕ) (counts : List ℕ) (labels : List ℕ)
    (sampler : ℕ → ℕ) (h : Heap) (xr pr : ℕ) : Heap × ℕ :=
  let nr := h.length
  let h1 := h ++ [h.getD pr []]
  let h2 := (List.range K).foldl
    (fun hh i =>
      hh.set nr ((hh.getD nr []).set i
        (centerRowFor ⟨hh.getD xr [], cols, counts⟩ labels sampler i)))
    h1
  (h2, nr)

/-- One `fit` pass at the object level (lines 106-112): assignment (a pure
collaborator call), centroid update, the inertia diff read from the heap,
and `self._cluster_centers = new_cluster_centers.copy()`, which allocates
yet another cell.  Returns the heap, the reference now held by
`self._cluster_centers`, the inertia, and the labels. -/
def fitPassHeap (env : FitEnv) (K cols : ℕ) (counts : List ℕ) (epoch : ℕ)
    (h : Heap) (xr pr : ℕ) : Heap × ℕ × ℚ × List ℕ :=
  let X : DMat := ⟨h.getD xr [], cols, counts⟩
  let labels := env.assign X (h.getD pr [])
  let u := updateCentroidsHeap K cols counts labels (env.sampler epoch) h xr pr
  let inertia := sqDiffSum (u.1.getD pr []) (u.1.getD u.2 [])
  (u.1 ++ [u.1.getD u.2 []], u.1.length, inertia, labels)

/-- Manhattan (L1) distance between two rows. -/
def l1dist (a b : Row) : ℚ :=
  ((a.zip b).map fun ab => |ab.1 - ab.2|).sum

/-- Modelled from the spec: a concrete instance of the external assignment
oracle `_assign_to_cluster` (not under this file's source), used for
concrete runs — nearest center under L1 distance, earliest index on
ties. -/
def exampleAssign (X : DMat) (C : Mat) : List ℕ :=
  X.rows.map fun r =>
    (((List.range C.length).map fun i => (l1dist r (C.getD i []), i)).foldl
      (fun b a => if a.1 < b.1 then a else b) (l1dist r (C.getD 0 []), 0)).2

/-- A concrete collaborator environment for concrete runs: the L1 oracle, a
fixed two-center initializer, and a sampler that always draws row 0. -/
def exampleEnv : FitEnv :=
  ⟨exampleAssign, fun _ => [[-1], [1]], fun _ _ => 0⟩

/-- The spec's convergence-scenario data: six 1-D points on one worker. -/
def exampleX : DMat :=
  ⟨[[-10], [-10], [-10], [10], [10], [10]], 1, [6]⟩

/-! ### Lemmas about the offset table and the owner-resolution loop -/

theorem displs_length (l : List ℕ) : ∀ off, (displs l off).length = l.length := by
  induction l with
  | nil => intro _; rfl
  | cons c rest ih =>
    intro off
    show (displs rest (off + c)).length + 1 = rest.length + 1
    rw [ih]

theorem displs_shift (l : List ℕ) (a : ℕ) :
    ∀ off, displs l (a + off) = (displs l off).map (a + ·) := by
  induction l with
  | nil => intro _; rfl
  | cons c rest ih =>
    intro off
    show (a + off) :: displs rest (a + off + c) = (a + off) :: (displs rest (off + c)).map (a + ·)
    rw [Nat.add_assoc, ih (off + c)]

theorem displs_eq_map (l : List ℕ) (c : ℕ) : displs l c = (displs l 0).map (c + ·) := by
  have h := displs_shift l c 0
  rwa [Nat.add_zero] at h

theorem ownerGo_map_shift (s c : ℕ) (hc : c ≤ s) (l : List ℕ) :
    ∀ p proc, ownerGo s p proc (l.map (c + ·)) = ownerGo (s - c) p proc l := by
  induction l with
  | nil => intro _ _; rfl
  | cons d rest ih =>
    intro p proc
    show ownerGo s p proc ((c + d) :: rest.map (c + ·)) = ownerGo (s - c) p proc (d :: rest)
    by_cases h : s - c < d
    · have h' : s < c + d := by omega
      simp [ownerGo, h, h']
    · have h' : ¬s < c + d := by omega
      simp [ownerGo, h, h', ih]

theorem ownerGo_succ (s : ℕ) (l : List ℕ) :
    ∀ p q, ownerGo s (p + 1) (q + 1) l = ownerGo s p q l + 1 := by
  induction l with
  | nil => intro _ _; rfl
  | cons d rest ih =>
    intro p q
    by_cases h : s < d
    · simp [ownerGo, h]
    · simp only [ownerGo, if_neg h]
      exact ih (p + 1) p

theorem ownerGo_le (s : ℕ) (l : List ℕ) :
    ∀ p proc, ownerGo s p proc l ≤ max proc (p + l.length - 1) := by
  induction l with
  | nil => intro p proc; simp [ownerGo]
  | cons d rest ih =>
    intro p proc
    by_cases h : s < d
    · simp only [ownerGo, if_pos h]
      omega
    · simp only [ownerGo, if_neg h]
      have h1 := ih (p + 1) p
      simp only [List.length_cons]
      omega

theorem ownerProc_lt (l : List ℕ) (s : ℕ) (hl : l ≠ []) : ownerProc l s < l.length := by
  have h := ownerGo_le s l 0 0
  have hlen : 1 ≤ l.length := by
    cases l with
    | nil => exact absurd rfl hl
    | cons a t => simp
  unfold ownerProc
  omega

/-- The empty-cluster fallback machinery is correct: for a drawn global
index `s` within range, resolving the owning worker through the offset
table and materializing its local row `s - displ[proc]` produces exactly
global row `s` of the data. -/
theorem fallbackRow_resolves :
    ∀ (counts : List ℕ) (rows : Mat) (cols s : ℕ),
      counts.sum = rows.length → s < rows.length →
      fallbackRow ⟨rows, cols, counts⟩ s = rows.getD s (List.replicate cols 0) := by
  intro counts
  induction counts with
  | nil =>
    intro rows cols s hsum hs
    simp only [List.sum_nil] at hsum
    omega
  | cons c rest ih =>
    intro rows cols s hsum hs
    rw [List.sum_cons] at hsum
    have hd : displs (c :: rest) 0 = 0 :: displs rest c := by
      show (0 : ℕ) :: displs rest (0 + c) = 0 :: displs rest c
      rw [Nat.zero_add]
    by_cases hcs : s < c
    · -- the first worker owns row s
      have howner : ownerProc (displs (c :: rest) 0) s = 0 := by
        rw [hd]
        show ownerGo s 1 0 (displs rest c) = 0
        cases rest with
        | nil => rfl
        | cons r rest' =>
          show ownerGo s 1 0 (c :: displs rest' (c + r)) = 0
          simp [ownerGo, hcs]
      show (llocRows rows (c :: rest) _).getD _ _ = _
      rw [howner, hd]
      show (rows.take c).getD (s - 0) (List.replicate cols 0)
          = rows.getD s (List.replicate cols 0)
      rw [Nat.sub_zero, List.getD_eq_getElem?_getD, List.getD_eq_getElem?_getD,
        List.getElem?_take, if_pos hcs]
    · -- row s lives in a later worker: recurse into the tail of the partition
      have hcs' : c ≤ s := Nat.le_of_not_lt hcs
      have hrest : rest ≠ [] := by
        intro hnil
        rw [hnil] at hsum
        simp only [List.sum_nil] at hsum
        omega
      obtain ⟨r, rest', hr⟩ : ∃ r rest', rest = r :: rest' := by
        cases rest with
        | nil => exact absurd rfl hrest
        | cons a t => exact ⟨a, t, rfl⟩
      have hd0 : displs rest 0 = 0 :: displs rest' r := by
        rw [hr]
        show (0 : ℕ) :: displs rest' (0 + r) = 0 :: displs rest' r
        rw [Nat.zero_add]
      have howner : ownerProc (displs (c :: rest) 0) s
          = ownerProc (displs rest 0) (s - c) + 1 := by
        rw [hd]
        show ownerGo s 1 0 (displs rest c) = ownerProc (displs rest 0) (s - c) + 1
        rw [displs_eq_map rest c, ownerGo_map_shift s c hcs', hd0]
        show ownerGo (s - c) 2 1 (displs rest' r) = ownerGo (s - c) 1 0 (displs rest' r) + 1
        exact ownerGo_succ (s - c) (displs rest' r) 1 0
      have ho' : ownerProc (displs rest 0) (s - c) < rest.length := by
        have := ownerProc_lt (displs rest 0) (s - c)
          (by rw [hd0]; exact List.cons_ne_nil _ _)
        rwa [displs_length] at this
      have hgetd : (displs (c :: rest) 0).getD (ownerProc (displs (c :: rest) 0) s) 0
          = c + (displs rest 0).getD (ownerProc (displs rest 0) (s - c)) 0 := by
        rw [howner, hd, List.getD_cons_succ, displs_eq_map rest c]
        have hlt : ownerProc (displs rest 0) (s - c) < ((displs rest 0).map (c + ·)).length := by
          rw [List.length_map, displs_length]
          exact ho'
        rw [List.getD_eq_getElem _ _ hlt, List.getElem_map,
          List.getD_eq_getElem _ _ (by rwa [displs_length])]
      have hlloc : llocRows rows (c :: rest) (ownerProc (displs (c :: rest) 0) s)
          = llocRows (rows.drop c) rest (ownerProc (displs rest 0) (s - c)) := by
        rw [howner]
        rfl
      have ihm := ih (rows.drop c) cols (s - c)
        (by rw [List.length_drop]; omega)
        (by rw [List.length_drop]; omega)
      show (llocRows rows (c :: rest) _).getD _ _ = _
      rw [hlloc, hgetd]
      have hidx : s - (c + (displs rest 0).getD (ownerProc (displs rest 0) (s - c)) 0)
          = s - c - (displs rest 0).getD (ownerProc (displs rest 0) (s - c)) 0 := by
        omega
      rw [hidx]
      have lhs_eq : (llocRows (rows.drop c) rest (ownerProc (displs rest 0) (s - c))).getD
          (s - c - (displs rest 0).getD (ownerProc (displs rest 0) (s - c)) 0)
          (List.replicate cols 0)
          = (rows.drop c).getD (s - c) (List.replicate cols 0) := ihm
      rw [lhs_eq, List.getD_eq_getElem?_getD, List.getD_eq_getElem?_getD,
        List.getElem?_drop]
      have : c + (s - c) = s := by omega
      rw [this]

/-! ### Lemmas about the per-cluster write loop of `_update_centroids` -/

theorem foldl_set_length (f : ℕ → Row) :
    ∀ (l : List ℕ) (acc : Mat),
      (l.foldl (fun a j => a.set j (f j)) acc).length = acc.length := by
  intro l
  induction l with
  | nil => intro _; rfl
  | cons j rest ih =>
    intro acc
    show (rest.foldl _ (acc.set j (f j))).length = acc.length
    rw [ih, List.length_set]

theorem foldl_set_getD_not_mem (f : ℕ → Row) :
    ∀ (l : List ℕ) (acc : Mat) (i : ℕ) (d : Row), i ∉ l →
      (l.foldl (fun a j => a.set j (f j)) acc).getD i d = acc.getD i d := by
  intro l
  induction l with
  | nil => intro _ _ _ _; rfl
  | cons j rest ih =>
    intro acc i d hmem
    have hij : j ≠ i := fun h => hmem (h ▸ List.mem_cons_self j rest)
    show (rest.foldl _ (acc.set j (f j))).getD i d = acc.getD i d
    rw [ih _ _ _ (fun h => hmem (List.mem_cons_of_mem j h)),
      List.getD_eq_getElem?_getD, List.getElem?_set_ne hij, ← List.getD_eq_getElem?_getD]

theorem foldl_set_getD_mem (f : ℕ → Row) :
    ∀ (l : List ℕ) (acc : Mat) (i : ℕ) (d : Row), i ∈ l → i < acc.length →
      (l.foldl (fun a j => a.set j (f j)) acc).getD i d = f i := by
  intro l
  induction l with
  | nil => intro _ _ _ h _; exact absurd h (List.not_mem_nil _)
  | cons j rest ih =>
    intro acc i d hmem hlen
    show (rest.foldl _ (acc.set j (f j))).getD i d = f i
    by_cases hr : i ∈ rest
    · exact ih _ _ _ hr (by rwa [List.length_set])
    · have hij : i = j := by
        cases List.mem_cons.mp hmem with
        | inl h => exact h
        | inr h => exact absurd h hr
      subst hij
      rw [foldl_set_getD_not_mem f rest _ i d hr, List.getD_eq_getElem _ _
        (by rwa [List.length_set]), List.getElem_set_self]

/-- Row `i` of the updated centers is exactly cluster `i`'s computed center. -/
theorem updateCentroids_getD (K : ℕ) (X : DMat) (labels : List ℕ) (prev : Mat)
    (sampler : ℕ → ℕ) (i : ℕ) (d : Row) (hK : i < K) (hprev : i < prev.length) :
    (updateCentroids K X labels prev sampler).getD i d = centerRowFor X labels sampler i :=
  foldl_set_getD_mem _ (List.range K) prev i d (List.mem_range.mpr hK) hprev

/-- The updated centers keep the previous centers' row count. -/
theorem updateCentroids_length (K : ℕ) (X : DMat) (labels : List ℕ) (prev : Mat)
    (sampler : ℕ → ℕ) :
    (updateCentroids K X labels prev sampler).length = prev.length :=
  foldl_set_length _ (List.range K) prev

/-! ### The row selection of the masking technique -/

theorem mask_one (r : Row) : r.map (· * (1 : ℚ)) = r := by
  simp

theorem absSum_mask_zero (r : Row) : absSum (r.map (· * (0 : ℚ))) = 0 := by
  simp [absSum]

/-- The masked-and-filtered selection keeps exactly the rows whose label is
`i` and whose absolute-value sum is non-zero, as row values in row order. -/
theorem survivors_rows_char :
    ∀ (rows : Mat) (labels : List ℕ) (i : ℕ), labels.length = rows.length →
      ((rows.zip labels).map fun rl => rl.1.map (· * maskVal rl.2 i)).filter
          (fun r => decide (absSum r ≠ 0))
        = ((List.range rows.length).filter fun r =>
            decide (labels.getD r 0 = i) && decide (absSum (rows.getD r []) ≠ 0)).map
            fun r => rows.getD r [] := by
  intro rows
  induction rows with
  | nil => intro labels i _; rfl
  | cons row rest ih =>
    intro labels i hlen
    cases labels with
    | nil => simp at hlen
    | cons l ls =>
      have hlen' : ls.length = rest.length := by simpa using hlen
      have htail := ih ls i hlen'
      have hrange : List.range (row :: rest).length
          = 0 :: (List.range rest.length).map Nat.succ := by
        rw [List.length_cons, List.range_succ_eq_map]
      have hcompose : ∀ q : ℕ → Bool,
          ((List.range rest.length).map Nat.succ).filter q
            = ((List.range rest.length).filter fun r => q (r + 1)).map Nat.succ := by
        intro q
        rw [List.filter_map]
        rfl
      have hzip : ((row :: rest).zip (l :: ls)) = (row, l) :: rest.zip ls := rfl
      have hpred : ((List.range rest.length).filter fun r =>
            decide ((l :: ls).getD (r + 1) 0 = i)
              && decide (absSum ((row :: rest).getD (r + 1) []) ≠ 0))
          = ((List.range rest.length).filter fun r =>
            decide (ls.getD r 0 = i) && decide (absSum (rest.getD r []) ≠ 0)) :=
        List.filter_congr fun r _ => rfl
      have htails :
          ((rest.zip ls).map fun rl => rl.1.map (· * maskVal rl.2 i)).filter
              (fun r => decide (absSum r ≠ 0))
            = (((List.range rest.length).filter fun r =>
                decide ((l :: ls).getD (r + 1) 0 = i)
                  && decide (absSum ((row :: rest).getD (r + 1) []) ≠ 0)).map Nat.succ).map
                fun r => (row :: rest).getD r [] := by
        rw [htail, List.map_map, hpred]
        exact List.map_congr_left fun r _ => rfl
      rw [hrange, List.filter_cons, hcompose, hzip, List.map_cons]
      by_cases hl : l = i
      · have hmask : row.map (· * maskVal l i) = row := by
          rw [hl]
          simp only [maskVal, if_pos rfl]
          exact mask_one row
        rw [hmask]
        by_cases hz : absSum row = 0
        · rw [List.filter_cons_of_neg (by simp [hz]),
            if_neg (by simp [List.getD_cons_zero, hz]), htails]
        · rw [List.filter_cons_of_pos (by simp [hz]),
            if_pos (by simp [List.getD_cons_zero, hl, hz]), htails, List.map_cons,
            List.getD_cons_zero]
      · have hmask : row.map (· * maskVal l i) = row.map (· * (0 : ℚ)) := by
          simp only [maskVal, if_neg hl]
        rw [hmask, List.filter_cons_of_neg
            (by simp [absSum, List.map_replicate, List.sum_replicate]),
          if_neg (by simp [List.getD_cons_zero, hl]), htails]

/-- `survivorsSrc` in terms of global row indices. -/
theorem survivorsSrc_char (X : DMat) (labels : List ℕ) (i : ℕ)
    (hlen : labels.length = X.rows.length) :
    survivorsSrc X labels i
      = ((List.range X.rows.length).filter fun r =>
          decide (labels.getD r 0 = i) && decide (absSum (X.rows.getD r []) ≠ 0)).map
          fun r => X.rows.getD r [] :=
  survivors_rows_char X.rows labels i hlen

/-- Every surviving row has non-zero absolute sum. -/
theorem survivorsSrc_absSum_ne (X : DMat) (labels : List ℕ) (i : ℕ) :
    ∀ row ∈ survivorsSrc X labels i, absSum row ≠ 0 := by
  intro row hmem
  have h := List.of_mem_filter hmem
  exact of_decide_eq_true h

/-! ### Claim theorems -/

/-- C1: in the centroid update, for every cluster index `i` in `[0, K)` whose
surviving assigned row count is zero, the new center for cluster `i` is set
verbatim to the row of the original data at the drawn global index
`s ∈ [0, N)`: the owner resolved from the per-worker offset table
materializes its local row and broadcasts it, and that broadcast row equals
`DataMatrix[s]`. -/
theorem kmedians_C1 (K : ℕ) (X : DMat) (labels : List ℕ) (prev : Mat)
    (sampler : ℕ → ℕ) (i : ℕ)
    (hK : i < K) (hprev : i < prev.length)
    (hsum : X.counts.sum = X.rows.length)
    (hs : sampler i < X.rows.length)
    (hempty : survivorsSrc X labels i = []) :
    (updateCentroids K X labels prev sampler).getD i [] = X.rows.getD (sampler i) [] := by
  rw [updateCentroids_getD K X labels prev sampler i [] hK hprev]
  show (if (survivorsSrc X labels i).length = 0 then fallbackRow X (sampler i)
      else medianRow X.cols (survivorsSrc X labels i)) = X.rows.getD (sampler i) []
  rw [hempty, if_pos (show ([] : Mat).length = 0 from rfl)]
  have h := fallbackRow_resolves X.counts X.rows X.cols (sampler i) hsum hs
  rw [List.getD_eq_getElem _ _ hs] at h
  rw [List.getD_eq_getElem _ _ hs]
  exact h

/-- C1 witness: a 5-row matrix split `[3, 0, 2]` across three workers,
cluster 0 empty, drawn index 3: the new center for cluster 0 is row 3. -/
theorem kmedians_C1_witness :
    (updateCentroids 2 ⟨[[1], [2], [3], [4], [5]], 1, [3, 0, 2]⟩ [1, 1, 1, 1, 1]
        [[9], [9]] (fun _ => 3)).getD 0 []
      = (⟨[[1], [2], [3], [4], [5]], 1, [3, 0, 2]⟩ : DMat).rows.getD 3 [] :=
  kmedians_C1 2 ⟨[[1], [2], [3], [4], [5]], 1, [3, 0, 2]⟩ [1, 1, 1, 1, 1] [[9], [9]]
    (fun _ => 3) 0 (by decide) (by decide) (by decide) (by decide)
    (by with_unfolding_all decide)

/-- C3: for every cluster index `i`, the centroid update selects exactly the
rows `r` with `LabelVector[r] == i` and then discards every selected row
whose masked row has absolute-value sum exactly zero; in particular a
genuine all-zero data row is excluded from cluster `i`'s median input even
when its label is `i`. -/
theorem kmedians_C3 (X : DMat) (labels : List ℕ) (i : ℕ)
    (hlen : labels.length = X.rows.length) :
    survivorsSrc X labels i
        = ((List.range X.rows.length).filter fun r =>
            decide (labels.getD r 0 = i) && decide (absSum (X.rows.getD r []) ≠ 0)).map
            (fun r => X.rows.getD r [])
      ∧ ∀ r : ℕ, r < X.rows.length → labels.getD r 0 = i →
          absSum (X.rows.getD r []) = 0 →
          X.rows.getD r [] ∉ survivorsSrc X labels i := by
  refine ⟨survivorsSrc_char X labels i hlen, ?_⟩
  intro r _ _ hz hmem
  exact survivorsSrc_absSum_ne X labels i _ hmem hz

/-- C3 witness: a two-row matrix whose first row is the all-zero row labelled
0; the survivor set for cluster 0 is characterized by the index filter and
the zero row is excluded despite carrying label 0. -/
theorem kmedians_C3_witness :
    survivorsSrc ⟨[[0], [5]], 1, [2]⟩ [0, 1] 0
        = ((List.range 2).filter fun r =>
            decide (([0, 1].getD r 0 : ℕ) = 0)
              && decide (absSum ((⟨[[0], [5]], 1, [2]⟩ : DMat).rows.getD r []) ≠ 0)).map
            (fun r => (⟨[[0], [5]], 1, [2]⟩ : DMat).rows.getD r [])
      ∧ ∀ r : ℕ, r < 2 → ([0, 1].getD r 0 : ℕ) = 0 →
          absSum ((⟨[[0], [5]], 1, [2]⟩ : DMat).rows.getD r []) = 0 →
          (⟨[[0], [5]], 1, [2]⟩ : DMat).rows.getD r []
            ∉ survivorsSrc ⟨[[0], [5]], 1, [2]⟩ [0, 1] 0 :=
  kmedians_C3 ⟨[[0], [5]], 1, [2]⟩ [0, 1] 0 (by decide)

/-- C2 counterexample: with the same DataMatrix `[[1], [2]]`, the same
LabelVector `[1, 1]` (cluster 0 empty) and the same previous centers, two
runs of the centroid update whose random draws differ produce different
CenterSets, so the update is not a pure function of DataMatrix and
LabelVector alone. -/
theorem kmedians_C2_counterexample :
    updateCentroids 1 ⟨[[1], [2]], 1, [2]⟩ [1, 1] [[0]] (fun _ => 0)
      ≠ updateCentroids 1 ⟨[[1], [2]], 1, [2]⟩ [1, 1] [[0]] (fun _ => 1) := by
  with_unfolding_all decide

/-- A cluster whose survivor set is non-empty never consults the sampler. -/
theorem centerRowFor_sampler_indep (X : DMat) (labels : List ℕ) (i : ℕ)
    (s1 s2 : ℕ → ℕ) (h : survivorsSrc X labels i ≠ []) :
    centerRowFor X labels s1 i = centerRowFor X labels s2 i := by
  show (if (survivorsSrc X labels i).length = 0 then fallbackRow X (s1 i)
      else medianRow X.cols (survivorsSrc X labels i))
    = (if (survivorsSrc X labels i).length = 0 then fallbackRow X (s2 i)
      else medianRow X.cols (survivorsSrc X labels i))
  rw [if_neg (fun hc => h (List.length_eq_zero.mp hc)),
    if_neg (fun hc => h (List.length_eq_zero.mp hc))]

/-- C2 amended: the centroid update is a pure function of DataMatrix,
LabelVector, the previous CenterSet and the drawn random indices; when
every cluster in `[0, K)` has at least one surviving assigned row, the
random draws are unused, and the update is then a deterministic function
of DataMatrix, LabelVector and the previous CenterSet alone. -/
theorem kmedians_C2_amended (K : ℕ) (X : DMat) (labels : List ℕ) (prev : Mat)
    (s1 s2 : ℕ → ℕ)
    (hne : ∀ i < K, survivorsSrc X labels i ≠ []) :
    updateCentroids K X labels prev s1 = updateCentroids K X labels prev s2 :=
  List.foldl_ext _ _ prev fun acc i hi => by
    rw [centerRowFor_sampler_indep X labels i s1 s2 (hne i (List.mem_range.mp hi))]

/-- C2 amended witness: both clusters of a concrete run are non-empty, and
two different samplers give the same updated CenterSet. -/
theorem kmedians_C2_amended_witness :
    updateCentroids 2 ⟨[[1], [2]], 1, [2]⟩ [0, 1] [[5], [5]] (fun _ => 0)
      = updateCentroids 2 ⟨[[1], [2]], 1, [2]⟩ [0, 1] [[5], [5]] (fun _ => 1) :=
  kmedians_C2_amended 2 ⟨[[1], [2]], 1, [2]⟩ [0, 1] [[5], [5]] (fun _ => 0) (fun _ => 1)
    (by with_unfolding_all decide)

/-- C4 counterexample: cluster 0 has exactly one assigned row, the all-zero
row `[0]`, but the masking filter discards it, the cluster is treated as
empty, and the fallback draw (index 1) makes the new center `[5] ≠ [0]`:
the assigned row is not returned unchanged. -/
theorem kmedians_C4_counterexample :
    ((List.range 2).filter fun r => decide (([0, 1].getD r 0 : ℕ) = 0)) = [0]
      ∧ (updateCentroids 2 ⟨[[0], [5]], 1, [2]⟩ [0, 1] [[7], [7]] (fun _ => 1)).getD 0 []
          ≠ (⟨[[0], [5]], 1, [2]⟩ : DMat).rows.getD 0 [] := by
  constructor
  · decide
  · with_unfolding_all decide

theorem median1_singleton (a : ℚ) : median1 [a] = a := by
  with_unfolding_all rfl

theorem map_range_getD (l : Row) :
    (List.range l.length).map (fun j => l.getD j 0) = l := by
  induction l with
  | nil => rfl
  | cons a t ih =>
    rw [List.length_cons, List.range_succ_eq_map, List.map_cons, List.map_map]
    have hcomp : (fun j => (a :: t).getD j 0) ∘ Nat.succ = fun j => t.getD j 0 := rfl
    rw [hcomp]
    show a :: (List.range t.length).map (fun j => t.getD j 0) = a :: t
    rw [ih]

/-- The coordinate-wise median of a single row is that row. -/
theorem medianRow_singleton (row : Row) : medianRow row.length [row] = row := by
  show (List.range row.length).map (fun j => median1 ([row].map fun r => r.getD j 0)) = row
  calc (List.range row.length).map (fun j => median1 ([row].map fun r => r.getD j 0))
      = (List.range row.length).map (fun j => row.getD j 0) :=
        List.map_congr_left fun j _ => median1_singleton _
    _ = row := map_range_getD row

/-- C4 amended: for every cluster index `i` with exactly one assigned row in
the LabelVector, provided that row's absolute-value sum is non-zero (so the
masking filter keeps it), the centroid update returns that row unchanged as
cluster `i`'s new center.  (The unamended claim fails when the single
assigned row is the all-zero row: it is then discarded and the fallback row
is used instead.) -/
theorem kmedians_C4_amended (K : ℕ) (X : DMat) (labels : List ℕ) (prev : Mat)
    (sampler : ℕ → ℕ) (i r : ℕ)
    (hK : i < K) (hprev : i < prev.length)
    (hwf : ∀ row ∈ X.rows, row.length = X.cols)
    (hlen : labels.length = X.rows.length)
    (hone : ((List.range X.rows.length).filter fun j => decide (labels.getD j 0 = i)) = [r])
    (hnz : absSum (X.rows.getD r []) ≠ 0) :
    (updateCentroids K X labels prev sampler).getD i [] = X.rows.getD r [] := by
  have hr : r < X.rows.length := by
    have hmem : r ∈ ((List.range X.rows.length).filter fun j =>
        decide (labels.getD j 0 = i)) := by
      rw [hone]
      exact List.mem_singleton_self r
    exact List.mem_range.mp (List.mem_filter.mp hmem).1
  have hrowlen : (X.rows.getD r []).length = X.cols := by
    rw [List.getD_eq_getElem _ _ hr]
    exact hwf _ (List.getElem_mem hr)
  have hsurv : survivorsSrc X labels i = [X.rows.getD r []] := by
    rw [survivorsSrc_char X labels i hlen]
    have h1 : ((List.range X.rows.length).filter fun j =>
          decide (labels.getD j 0 = i) && decide (absSum (X.rows.getD j []) ≠ 0))
        = ((List.range X.rows.length).filter fun j =>
            decide (labels.getD j 0 = i)).filter
              fun j => decide (absSum (X.rows.getD j []) ≠ 0) := by
      rw [List.filter_filter]
      exact List.filter_congr fun x _ => Bool.and_comm _ _
    rw [h1, hone, List.filter_cons_of_pos (by simpa using hnz), List.filter_nil,
      List.map_cons, List.map_nil]
  rw [updateCentroids_getD K X labels prev sampler i [] hK hprev]
  show (if (survivorsSrc X labels i).length = 0 then fallbackRow X (sampler i)
      else medianRow X.cols (survivorsSrc X labels i)) = X.rows.getD r []
  rw [hsurv, if_neg (by simp), ← hrowlen]
  exact medianRow_singleton _

/-- C4 amended witness: cluster 0 has exactly the single assigned row
`[3, 4]` (non-zero), and the update returns it unchanged as center 0. -/
theorem kmedians_C4_amended_witness :
    (updateCentroids 2 ⟨[[3, 4], [9, 9]], 2, [2]⟩ [0, 1] [[7, 7], [8, 8]]
        (fun _ => 0)).getD 0 []
      = (⟨[[3, 4], [9, 9]], 2, [2]⟩ : DMat).rows.getD 0 [] :=
  kmedians_C4_amended 2 ⟨[[3, 4], [9, 9]], 2, [2]⟩ [0, 1] [[7, 7], [8, 8]]
    (fun _ => 0) 0 0 (by decide) (by decide) (by decide) (by decide) (by decide)
    (by with_unfolding_all decide)

/-! ### Dimension lemmas -/

theorem llocRows_subset :
    ∀ (counts : List ℕ) (rows : Mat) (p : ℕ), ∀ x ∈ llocRows rows counts p, x ∈ rows := by
  intro counts
  induction counts with
  | nil => intro rows p x hx; exact absurd hx (List.not_mem_nil x)
  | cons c rest ih =>
    intro rows p x hx
    cases p with
    | zero => exact List.mem_of_mem_take hx
    | succ q => exact List.mem_of_mem_drop (ih (rows.drop c) q x hx)

theorem getD_length (l : Mat) (n : ℕ) (d : Row) (c : ℕ)
    (hl : ∀ x ∈ l, x.length = c) (hd : d.length = c) : (l.getD n d).length = c := by
  by_cases h : n < l.length
  · rw [List.getD_eq_getElem _ _ h]
    exact hl _ (List.getElem_mem h)
  · rw [List.getD_eq_default _ _ (Nat.le_of_not_lt h)]
    exact hd

/-- The fallback row always has the data's column count: it is either an
actual data row or the pre-broadcast zero buffer `ht.zeros(X.shape[1])`. -/
theorem fallbackRow_length (X : DMat) (s : ℕ)
    (hwf : ∀ row ∈ X.rows, row.length = X.cols) :
    (fallbackRow X s).length = X.cols :=
  getD_length _ _ _ _
    (fun x hx => hwf x (llocRows_subset X.counts X.rows _ x hx))
    (List.length_replicate _ _)

theorem medianRow_length (c : ℕ) (rows : Mat) : (medianRow c rows).length = c := by
  unfold medianRow
  rw [List.length_map, List.length_range]

theorem centerRowFor_length (X : DMat) (labels : List ℕ) (sampler : ℕ → ℕ) (i : ℕ)
    (hwf : ∀ row ∈ X.rows, row.length = X.cols) :
    (centerRowFor X labels sampler i).length = X.cols := by
  show (if (survivorsSrc X labels i).length = 0 then fallbackRow X (sampler i)
      else medianRow X.cols (survivorsSrc X labels i)).length = X.cols
  by_cases h : (survivorsSrc X labels i).length = 0
  · rw [if_pos h]
    exact fallbackRow_length X _ hwf
  · rw [if_neg h]
    exact medianRow_length _ _

theorem foldl_set_mem_length (f : ℕ → Row) (c : ℕ) (hf : ∀ j, (f j).length = c) :
    ∀ (l : List ℕ) (acc : Mat), (∀ row ∈ acc, row.length = c) →
      ∀ row ∈ l.foldl (fun a j => a.set j (f j)) acc, row.length = c := by
  intro l
  induction l with
  | nil => intro acc hacc row hrow; exact hacc row hrow
  | cons j rest ih =>
    intro acc hacc row hrow
    refine ih (acc.set j (f j)) ?_ row hrow
    intro x hx
    cases List.mem_or_eq_of_mem_set hx with
    | inl h => exact hacc x h
    | inr h => rw [h]; exact hf j

/-- Every row of the updated centers has the data's column count. -/
theorem updateCentroids_cols (K : ℕ) (X : DMat) (labels : List ℕ) (prev : Mat)
    (sampler : ℕ → ℕ)
    (hwf : ∀ row ∈ X.rows, row.length = X.cols)
    (hprev : ∀ row ∈ prev, row.length = X.cols) :
    ∀ row ∈ updateCentroids K X labels prev sampler, row.length = X.cols :=
  foldl_set_mem_length _ X.cols (fun j => centerRowFor_length X labels sampler j hwf)
    (List.range K) prev hprev

/-! ### Unfolding lemmas for the fit loop -/

theorem fitLoop_zero (env : FitEnv) (K : ℕ) (X : DMat) (tol : Option ℚ)
    (st : LoopState) : fitLoop env K X tol 0 st = (st, []) := rfl

theorem fitLoop_succ_some (env : FitEnv) (K : ℕ) (X : DMat) (t : ℚ) (fuel : ℕ)
    (st : LoopState) :
    fitLoop env K X (some t) (fuel + 1) st
      = if (fitPass env K X st).inertia.getD 0 ≤ t
        then (fitPass env K X st, [(fitPass env K X st).inertia.getD 0])
        else ((fitLoop env K X (some t) fuel (fitPass env K X st)).1,
          (fitPass env K X st).inertia.getD 0
            :: (fitLoop env K X (some t) fuel (fitPass env K X st)).2) := rfl

theorem fitLoop_succ_none (env : FitEnv) (K : ℕ) (X : DMat) (fuel : ℕ)
    (st : LoopState) :
    fitLoop env K X none (fuel + 1) st
      = ((fitLoop env K X none fuel (fitPass env K X st)).1,
        (fitPass env K X st).inertia.getD 0
          :: (fitLoop env K X none fuel (fitPass env K X st)).2) := rfl

theorem fitPass_centers (env : FitEnv) (K : ℕ) (X : DMat) (st : LoopState) :
    (fitPass env K X st).centers
      = updateCentroids K X (env.assign X st.centers) st.centers
          (env.sampler st.n_iter) := rfl

theorem fitPass_n_iter (env : FitEnv) (K : ℕ) (X : DMat) (st : LoopState) :
    (fitPass env K X st).n_iter = st.n_iter + 1 := rfl

theorem fitPass_inertia (env : FitEnv) (K : ℕ) (X : DMat) (st : LoopState) :
    (fitPass env K X st).inertia
      = some (sqDiffSum st.centers
          (updateCentroids K X (env.assign X st.centers) st.centers
            (env.sampler st.n_iter))) := rfl

/-- The loop preserves well-formed center dimensions. -/
theorem fitLoop_centers_wf (env : FitEnv) (K : ℕ) (X : DMat) (tol : Option ℚ)
    (hwf : ∀ row ∈ X.rows, row.length = X.cols) :
    ∀ (fuel : ℕ) (st : LoopState),
      st.centers.length = K → (∀ row ∈ st.centers, row.length = X.cols) →
      (fitLoop env K X tol fuel st).1.centers.length = K
        ∧ ∀ row ∈ (fitLoop env K X tol fuel st).1.centers, row.length = X.cols := by
  intro fuel
  induction fuel with
  | zero => intro st h1 h2; exact ⟨h1, h2⟩
  | succ n ih =>
    intro st h1 h2
    have hlen' : (fitPass env K X st).centers.length = K := by
      rw [fitPass_centers, updateCentroids_length, h1]
    have hrows' : ∀ row ∈ (fitPass env K X st).centers, row.length = X.cols := by
      rw [fitPass_centers]
      exact updateCentroids_cols K X _ st.centers _ hwf h2
    cases tol with
    | none =>
      rw [fitLoop_succ_none]
      exact ih (fitPass env K X st) hlen' hrows'
    | some t =>
      rw [fitLoop_succ_some]
      by_cases hI : (fitPass env K X st).inertia.getD 0 ≤ t
      · rw [if_pos hI]
        exact ⟨hlen', hrows'⟩
      · rw [if_neg hI]
        exact ih (fitPass env K X st) hlen' hrows'

/-- C9: for every valid input, after `fit` returns, and after every centroid
update within it, the CenterSet has exactly K (= `n_clusters`) rows and
exactly D columns, D being the DataMatrix's column count: each cluster
branch writes a 1×D row into row `i` of a K×D matrix. -/
theorem kmedians_C9 (env : FitEnv) (m : KMState) (X : DMat)
    (hwf : ∀ row ∈ X.rows, row.length = X.cols)
    (hinitK : (env.initCenters X).length = m.n_clusters)
    (hinitD : ∀ row ∈ env.initCenters X, row.length = X.cols) :
    ((fitCore env m X).1.centers.length = m.n_clusters
      ∧ ∀ row ∈ (fitCore env m X).1.centers, row.length = X.cols)
    ∧ ∀ (labels : List ℕ) (prev : Mat) (sampler : ℕ → ℕ),
        prev.length = m.n_clusters → (∀ row ∈ prev, row.length = X.cols) →
        (updateCentroids m.n_clusters X labels prev sampler).length = m.n_clusters
          ∧ ∀ row ∈ updateCentroids m.n_clusters X labels prev sampler,
              row.length = X.cols := by
  constructor
  · exact fitLoop_centers_wf env m.n_clusters X m.tol hwf m.max_iter _ hinitK hinitD
  · intro labels prev sampler hK hD
    refine ⟨?_, updateCentroids_cols m.n_clusters X labels prev sampler hwf hD⟩
    rw [updateCentroids_length, hK]

/-- C9 witness: the convergence-scenario run keeps a 2×1 CenterSet. -/
theorem kmedians_C9_witness :
    (((fitCore exampleEnv ⟨2, 5, some 0, none⟩ exampleX).1.centers.length = 2
      ∧ ∀ row ∈ (fitCore exampleEnv ⟨2, 5, some 0, none⟩ exampleX).1.centers,
          row.length = 1)
    ∧ ∀ (labels : List ℕ) (prev : Mat) (sampler : ℕ → ℕ),
        prev.length = 2 → (∀ row ∈ prev, row.length = 1) →
        (updateCentroids 2 exampleX labels prev sampler).length = 2
          ∧ ∀ row ∈ updateCentroids 2 exampleX labels prev sampler,
              row.length = 1) :=
  kmedians_C9 exampleEnv ⟨2, 5, some 0, none⟩ exampleX (by decide) (by decide)
    (by decide)

/-- The bookkeeping facts of the `for`/`break` loop: the final iteration
count adds the number of executed passes, at most `fuel` passes run, every
pass except the last had inertia above the tolerance, and an early exit
means the last executed pass reached the tolerance. -/
theorem fitLoop_spec (env : FitEnv) (K : ℕ) (X : DMat) (tol : Option ℚ) :
    ∀ (fuel : ℕ) (st : LoopState),
      (fitLoop env K X tol fuel st).1.n_iter
          = st.n_iter + (fitLoop env K X tol fuel st).2.length
      ∧ (fitLoop env K X tol fuel st).2.length ≤ fuel
      ∧ (∀ t, tol = some t → ∀ k, k + 1 < (fitLoop env K X tol fuel st).2.length →
          t < (fitLoop env K X tol fuel st).2.getD k 0)
      ∧ ((fitLoop env K X tol fuel st).2.length < fuel →
          ∃ t, tol = some t
            ∧ (fitLoop env K X tol fuel st).2 ≠ []
            ∧ (fitLoop env K X tol fuel st).2.getD
                ((fitLoop env K X tol fuel st).2.length - 1) 0 ≤ t) := by
  intro fuel
  induction fuel with
  | zero =>
    intro st
    refine ⟨rfl, Nat.le_refl 0, ?_, ?_⟩
    · intro t _ k hk
      simp [fitLoop_zero] at hk
    · intro h
      exact absurd h (by simp [fitLoop_zero])
  | succ n ih =>
    intro st
    cases tol with
    | none =>
      obtain ⟨ih1, ih2, _, ih4⟩ := ih (fitPass env K X st)
      rw [fitLoop_succ_none]
      refine ⟨?_, ?_, ?_, ?_⟩
      · simp only [List.length_cons]
        rw [ih1, fitPass_n_iter]
        omega
      · simp only [List.length_cons]
        omega
      · intro t ht
        exact absurd ht (by simp)
      · intro hlt
        simp only [List.length_cons] at hlt
        obtain ⟨t, ht, -⟩ := ih4 (by omega)
        exact absurd ht (by simp)
    | some t =>
      obtain ⟨ih1, ih2, ih3, ih4⟩ := ih (fitPass env K X st)
      rw [fitLoop_succ_some]
      by_cases hI : (fitPass env K X st).inertia.getD 0 ≤ t
      · rw [if_pos hI]
        refine ⟨?_, ?_, ?_, ?_⟩
        · rfl
        · simp
        · intro t' ht' k hk
          simp only [List.length_cons, List.length_nil] at hk
          exact absurd hk (by omega)
        · intro _
          exact ⟨t, rfl, by simp, by simpa using hI⟩
      · rw [if_neg hI]
        refine ⟨?_, ?_, ?_, ?_⟩
        · simp only [List.length_cons]
          rw [ih1, fitPass_n_iter]
          omega
        · simp only [List.length_cons]
          omega
        · intro t' ht' k hk
          have htt : t' = t := by
            injection ht' with h
            exact h.symm
          subst htt
          cases k with
          | zero =>
            rw [List.getD_cons_zero]
            exact lt_of_not_le hI
          | succ k' =>
            rw [List.getD_cons_succ]
            simp only [List.length_cons] at hk
            exact ih3 t' rfl k' (by omega)
        · intro hlt
          simp only [List.length_cons] at hlt
          obtain ⟨t', ht', hne, hlast⟩ := ih4 (by omega)
          have htt : t' = t := by
            injection ht' with h
            exact h.symm
          subst htt
          refine ⟨t', rfl, by simp, ?_⟩
          simp only [List.length_cons]
          have hlen1 : 1 ≤ (fitLoop env K X (some t') n (fitPass env K X st)).2.length := by
            cases hfl : (fitLoop env K X (some t') n (fitPass env K X st)).2 with
            | nil => exact absurd hfl hne
            | cons a l => simp [hfl]
          rw [Nat.add_sub_cancel]
          have hidx : (fitLoop env K X (some t') n (fitPass env K X st)).2.length
              = ((fitLoop env K X (some t') n (fitPass env K X st)).2.length - 1) + 1 := by
            omega
          rw [hidx, List.getD_cons_succ]
          exact hlast

/-- C5: for every input and every `max_iter ≥ 0`, `fit` executes at most
`max_iter` loop passes (the trace of executed passes is exactly `n_iter`
long), the returned iteration count is `≤ max_iter`, and when `tol` is set,
every pass before the last has inertia above `tol` while an early exit
means the last executed pass reached `tol` — i.e. the loop stops at the
first pass whose computed inertia is `≤ tol`, with no further assignment
or update afterwards. -/
theorem kmedians_C5 (env : FitEnv) (m : KMState) (X : DMat) :
    (fitCore env m X).2.length = (fitCore env m X).1.n_iter
    ∧ (fitCore env m X).1.n_iter ≤ m.max_iter
    ∧ (∀ t, m.tol = some t → ∀ k, k + 1 < (fitCore env m X).2.length →
        t < (fitCore env m X).2.getD k 0)
    ∧ ((fitCore env m X).1.n_iter < m.max_iter →
        ∃ t, m.tol = some t
          ∧ (fitCore env m X).2.getD ((fitCore env m X).2.length - 1) 0 ≤ t) := by
  have hc : fitCore env m X
      = fitLoop env m.n_clusters X m.tol m.max_iter (initState env m X) := rfl
  obtain ⟨h1, h2, h3, h4⟩ :=
    fitLoop_spec env m.n_clusters X m.tol m.max_iter (initState env m X)
  have hn : (initState env m X).n_iter = 0 := rfl
  rw [hn] at h1
  rw [hc]
  refine ⟨by rw [h1]; omega, by rw [h1]; omega, h3, ?_⟩
  intro hlt
  rw [h1] at hlt
  obtain ⟨t, ht, -, hlast⟩ := h4 (by omega)
  exact ⟨t, ht, hlast⟩

/-- C5 witness: the convergence-scenario run stops within the budget, and the
pass before the stopping pass had inertia above the tolerance 0. -/
theorem kmedians_C5_witness :
    (fitCore exampleEnv ⟨2, 5, some 0, none⟩ exampleX).1.n_iter ≤ 5
    ∧ (0 : ℚ) < (fitCore exampleEnv ⟨2, 5, some 0, none⟩ exampleX).2.getD 0 0 := by
  have h := kmedians_C5 exampleEnv ⟨2, 5, some 0, none⟩ exampleX
  exact ⟨h.2.1, h.2.2.1 0 rfl 0 (by with_unfolding_all decide)⟩

/-- C10: if `max_iter` is 0, `fit` completes without executing a single pass
(empty trace, so the Assignment Oracle and the Centroid Updater are never
consulted), returns iteration count 0, and returns the all-zero
LabelVector created at initialization. -/
theorem kmedians_C10 (env : FitEnv) (m : KMState) (X : DMat) (h0 : m.max_iter = 0) :
    (fitCore env m X).1.n_iter = 0
    ∧ (fitCore env m X).1.labels = List.replicate X.rows.length 0
    ∧ (fitCore env m X).2 = [] := by
  have hc : fitCore env m X
      = fitLoop env m.n_clusters X m.tol m.max_iter (initState env m X) := rfl
  rw [hc, h0, fitLoop_zero]
  exact ⟨rfl, rfl, rfl⟩

/-- C10 witness: a zero-budget run on the convergence-scenario data. -/
theorem kmedians_C10_witness :
    (fitCore exampleEnv ⟨2, 0, some 0, none⟩ exampleX).1.n_iter = 0
    ∧ (fitCore exampleEnv ⟨2, 0, some 0, none⟩ exampleX).1.labels
        = List.replicate exampleX.rows.length 0
    ∧ (fitCore exampleEnv ⟨2, 0, some 0, none⟩ exampleX).2 = [] :=
  kmedians_C10 exampleEnv ⟨2, 0, some 0, none⟩ exampleX rfl

/-! ### The inertia computation -/

theorem rowSqSum_eq :
    ∀ (a b : Row) (D : ℕ), a.length = D → b.length = D →
      ((a.zip b).map fun ab => (ab.1 - ab.2) ^ 2).sum
        = ∑ j ∈ Finset.range D, (a.getD j 0 - b.getD j 0) ^ 2 := by
  intro a
  induction a with
  | nil =>
    intro b D ha _
    rw [← ha]
    rfl
  | cons x xs ih =>
    intro b D ha hb
    cases b with
    | nil =>
      rw [← hb] at ha
      exact absurd ha (by simp)
    | cons y ys =>
      subst ha
      have hys : ys.length = xs.length := by simpa using hb
      rw [show ((x :: xs).zip (y :: ys)) = (x, y) :: xs.zip ys from rfl,
        List.map_cons, List.sum_cons, List.length_cons, Finset.sum_range_succ']
      have hhead : ((x :: xs).getD 0 0 - (y :: ys).getD 0 0) ^ 2 = (x - y) ^ 2 := rfl
      have htail : ∀ j, ((x :: xs).getD (j + 1) 0 - (y :: ys).getD (j + 1) 0) ^ 2
          = (xs.getD j 0 - ys.getD j 0) ^ 2 := fun j => rfl
      rw [hhead, Finset.sum_congr rfl fun j _ => htail j, ih ys xs.length rfl hys]
      exact add_comm _ _

theorem sqDiffSum_eq :
    ∀ (A B : Mat) (K D : ℕ), A.length = K → B.length = K →
      (∀ r ∈ A, r.length = D) → (∀ r ∈ B, r.length = D) →
      sqDiffSum A B = ∑ i ∈ Finset.range K, ∑ j ∈ Finset.range D,
        ((A.getD i []).getD j 0 - (B.getD i []).getD j 0) ^ 2 := by
  intro A
  induction A with
  | nil =>
    intro B K D hA _ _ _
    rw [← hA]
    rfl
  | cons a A' ih =>
    intro B K D hA hB hAr hBr
    cases B with
    | nil =>
      rw [← hB] at hA
      exact absurd hA (by simp)
    | cons b B' =>
      subst hA
      have hB' : B'.length = A'.length := by simpa using hB
      have hstep : sqDiffSum (a :: A') (b :: B')
          = ((a.zip b).map fun ab => (ab.1 - ab.2) ^ 2).sum + sqDiffSum A' B' := by
        show (((a, b) :: A'.zip B').map fun rr =>
            ((rr.1.zip rr.2).map fun ab => (ab.1 - ab.2) ^ 2).sum).sum = _
        rw [List.map_cons, List.sum_cons]
        rfl
      rw [hstep, List.length_cons, Finset.sum_range_succ']
      have hhead : (∑ j ∈ Finset.range D,
          (((a :: A').getD 0 []).getD j 0 - ((b :: B').getD 0 []).getD j 0) ^ 2)
          = ∑ j ∈ Finset.range D, (a.getD j 0 - b.getD j 0) ^ 2 := rfl
      have htail : ∀ i, (∑ j ∈ Finset.range D,
          (((a :: A').getD (i + 1) []).getD j 0 - ((b :: B').getD (i + 1) []).getD j 0) ^ 2)
          = ∑ j ∈ Finset.range D, ((A'.getD i []).getD j 0 - (B'.getD i []).getD j 0) ^ 2 :=
        fun i => rfl
      rw [hhead, Finset.sum_congr rfl fun i _ => htail i,
        ih B' A'.length D rfl hB' (fun r hr => hAr r (List.mem_cons_of_mem a hr))
          (fun r hr => hBr r (List.mem_cons_of_mem b hr)),
        rowSqSum_eq a b D (hAr a (List.mem_cons_self a A')) (hBr b (List.mem_cons_self b B'))]
      exact add_comm _ _

/-- C7: in every fit iteration, the inertia value used for the convergence
check equals the sum over all K·D entries of the squared element-wise
difference between the previous CenterSet and the new CenterSet produced
by the centroid update of that iteration. -/
theorem kmedians_C7 (env : FitEnv) (K : ℕ) (X : DMat) (st : LoopState)
    (hwf : ∀ row ∈ X.rows, row.length = X.cols)
    (hcK : st.centers.length = K)
    (hcD : ∀ row ∈ st.centers, row.length = X.cols) :
    (fitPass env K X st).inertia
      = some (∑ i ∈ Finset.range K, ∑ j ∈ Finset.range X.cols,
          ((st.centers.getD i []).getD j 0
            - ((updateCentroids K X (env.assign X st.centers) st.centers
                (env.sampler st.n_iter)).getD i []).getD j 0) ^ 2) := by
  rw [fitPass_inertia]
  congr 1
  exact sqDiffSum_eq st.centers _ K X.cols hcK
    (by rw [updateCentroids_length, hcK]) hcD
    (updateCentroids_cols K X _ st.centers _ hwf hcD)

/-- C7 witness: the first pass of the convergence scenario. -/
theorem kmedians_C7_witness :
    (fitPass exampleEnv 2 exampleX ⟨[[-1], [1]], [], 0, none⟩).inertia
      = some (∑ i ∈ Finset.range 2, ∑ j ∈ Finset.range exampleX.cols,
          ((([[-1], [1]] : Mat).getD i []).getD j 0
            - ((updateCentroids 2 exampleX
                (exampleEnv.assign exampleX [[-1], [1]]) [[-1], [1]]
                (exampleEnv.sampler 0)).getD i []).getD j 0) ^ 2) :=
  kmedians_C7 exampleEnv 2 exampleX ⟨[[-1], [1]], [], 0, none⟩ (by decide) (by decide)
    (by decide)

/-- C6: `fit` raises its input-type error exactly when the argument is not
the expected partitioned-matrix type (`ht.DNDarray`); the check is the
first thing `fit` does, so on a bad input it raises before any
initialization or iteration and the object state is unchanged. -/
theorem kmedians_C6 (env : FitEnv) (m : KMState) (inp : FitInput) :
    ((fitPy env m inp).2.isOk = true ↔ ∃ X, inp = FitInput.dnd X)
    ∧ (∀ e, (fitPy env m inp).2 = Except.error e → (fitPy env m inp).1 = m)
    ∧ (∀ t, inp = FitInput.other t →
        fitPy env m inp
          = (m, Except.error ("input needs to be a ht.DNDarray, but was " ++ t))) := by
  cases inp with
  | dnd X =>
    refine ⟨⟨fun _ => ⟨X, rfl⟩, fun _ => rfl⟩, ?_, ?_⟩
    · intro e he
      simp [fitPy] at he
    · intro t ht
      exact FitInput.noConfusion ht
  | other s =>
    refine ⟨⟨?_, ?_⟩, ?_, ?_⟩
    · intro hOk
      simp [fitPy, Except.isOk, Except.toBool] at hOk
    · intro hX
      obtain ⟨X, hX⟩ := hX
      exact FitInput.noConfusion hX
    · intro e _
      rfl
    · intro t ht
      injection ht with hst
      rw [hst]
      rfl

/-- C6 witness: a non-`DNDarray` input errors and leaves the state `m`
untouched; a `DNDarray` input succeeds. -/
theorem kmedians_C6_witness :
    ¬(fitPy exampleEnv ⟨2, 5, some 0, none⟩ (FitInput.other "int")).2.isOk = true
    ∧ (fitPy exampleEnv ⟨2, 5, some 0, none⟩ (FitInput.other "int")).1
        = (⟨2, 5, some 0, none⟩ : KMState)
    ∧ (fitPy exampleEnv ⟨2, 5, some 0, none⟩ (FitInput.dnd exampleX)).2.isOk = true := by
  have h1 := kmedians_C6 exampleEnv ⟨2, 5, some 0, none⟩ (FitInput.other "int")
  have h2 := kmedians_C6 exampleEnv ⟨2, 5, some 0, none⟩ (FitInput.dnd exampleX)
  refine ⟨?_, ?_, h2.1.mpr ⟨exampleX, rfl⟩⟩
  · intro hOk
    obtain ⟨X, hX⟩ := h1.1.mp hOk
    exact FitInput.noConfusion hX
  · exact congrArg Prod.fst (h1.2.2 "int" rfl)

/-! ### The object-level (heap) behavior of the update and the pass -/

theorem heap_fold_spec (cols : ℕ) (counts labels : List ℕ) (sampler : ℕ → ℕ)
    (xr pr : ℕ) (X0 : Mat) :
    ∀ (l : List ℕ) (hh : Heap) (nr : ℕ), hh.length = nr + 1 → xr < nr → pr < nr →
      hh.getD xr [] = X0 →
      (l.foldl (fun h2 i => h2.set nr ((h2.getD nr []).set i
          (centerRowFor ⟨h2.getD xr [], cols, counts⟩ labels sampler i))) hh).length = nr + 1
      ∧ (l.foldl (fun h2 i => h2.set nr ((h2.getD nr []).set i
          (centerRowFor ⟨h2.getD xr [], cols, counts⟩ labels sampler i))) hh).getD xr []
          = hh.getD xr []
      ∧ (l.foldl (fun h2 i => h2.set nr ((h2.getD nr []).set i
          (centerRowFor ⟨h2.getD xr [], cols, counts⟩ labels sampler i))) hh).getD pr []
          = hh.getD pr []
      ∧ (l.foldl (fun h2 i => h2.set nr ((h2.getD nr []).set i
          (centerRowFor ⟨h2.getD xr [], cols, counts⟩ labels sampler i))) hh).getD nr []
          = l.foldl (fun acc i => acc.set i (centerRowFor ⟨X0, cols, counts⟩ labels sampler i))
              (hh.getD nr []) := by
  intro l
  induction l with
  | nil => intro hh nr hlen _ _ _; exact ⟨hlen, rfl, rfl, rfl⟩
  | cons i rest ih =>
    intro hh nr hlen hxr hpr hX
    have hnrlt : nr < hh.length := by omega
    have hxr' : (hh.set nr ((hh.getD nr []).set i
        (centerRowFor ⟨hh.getD xr [], cols, counts⟩ labels sampler i))).getD xr []
        = hh.getD xr [] := by
      rw [List.getD_eq_getElem?_getD, List.getElem?_set_ne (by omega),
        ← List.getD_eq_getElem?_getD]
    have hpr' : (hh.set nr ((hh.getD nr []).set i
        (centerRowFor ⟨hh.getD xr [], cols, counts⟩ labels sampler i))).getD pr []
        = hh.getD pr [] := by
      rw [List.getD_eq_getElem?_getD, List.getElem?_set_ne (by omega),
        ← List.getD_eq_getElem?_getD]
    have hnr' : (hh.set nr ((hh.getD nr []).set i
        (centerRowFor ⟨hh.getD xr [], cols, counts⟩ labels sampler i))).getD nr []
        = (hh.getD nr []).set i (centerRowFor ⟨X0, cols, counts⟩ labels sampler i) := by
      rw [List.getD_eq_getElem _ _ (by rw [List.length_set]; omega),
        List.getElem_set_self, hX]
    obtain ⟨ih1, ih2, ih3, ih4⟩ := ih
      (hh.set nr ((hh.getD nr []).set i
        (centerRowFor ⟨hh.getD xr [], cols, counts⟩ labels sampler i)))
      nr (by rw [List.length_set]; exact hlen) hxr hpr (hxr'.trans hX)
    refine ⟨ih1, ih2.trans hxr', ih3.trans hpr', ?_⟩
    rw [List.foldl_cons, ih4, hnr']
    rfl

theorem updateCentroidsHeap_eq (K cols : ℕ) (counts labels : List ℕ)
    (sampler : ℕ → ℕ) (h : Heap) (xr pr : ℕ) :
    updateCentroidsHeap K cols counts labels sampler h xr pr
      = ((List.range K).foldl
          (fun h2 i => h2.set h.length ((h2.getD h.length []).set i
            (centerRowFor ⟨h2.getD xr [], cols, counts⟩ labels sampler i)))
          (h ++ [h.getD pr []]), h.length) := rfl

/-- The heap-level update leaves the data cell and the previous-centers cell
untouched, returns a reference to a fresh cell, and that cell holds exactly
the value of the pure update. -/
theorem updateCentroidsHeap_spec (K cols : ℕ) (counts labels : List ℕ)
    (sampler : ℕ → ℕ) (h : Heap) (xr pr : ℕ)
    (hxr : xr < h.length) (hpr : pr < h.length) :
    (updateCentroidsHeap K cols counts labels sampler h xr pr).2 = h.length
    ∧ (updateCentroidsHeap K cols counts labels sampler h xr pr).1.length = h.length + 1
    ∧ (updateCentroidsHeap K cols counts labels sampler h xr pr).1.getD xr []
        = h.getD xr []
    ∧ (updateCentroidsHeap K cols counts labels sampler h xr pr).1.getD pr []
        = h.getD pr []
    ∧ (updateCentroidsHeap K cols counts labels sampler h xr pr).1.getD h.length []
        = updateCentroids K ⟨h.getD xr [], cols, counts⟩ labels (h.getD pr []) sampler := by
  have hlen1 : (h ++ [h.getD pr []]).length = h.length + 1 := by
    rw [List.length_append]
    rfl
  have hgxr : (h ++ [h.getD pr []]).getD xr [] = h.getD xr [] :=
    List.getD_append _ _ _ _ hxr
  have hgpr : (h ++ [h.getD pr []]).getD pr [] = h.getD pr [] :=
    List.getD_append _ _ _ _ hpr
  have hgnr : (h ++ [h.getD pr []]).getD h.length [] = h.getD pr [] := by
    rw [List.getD_eq_getElem?_getD, List.getElem?_concat_length]
    rfl
  obtain ⟨f1, f2, f3, f4⟩ := heap_fold_spec cols counts labels sampler xr pr
    (h.getD xr []) (List.range K) (h ++ [h.getD pr []]) h.length hlen1 hxr hpr hgxr
  rw [updateCentroidsHeap_eq]
  exact ⟨rfl, f1, f2.trans hgxr, f3.trans hgpr, by rw [f4, hgnr]; rfl⟩

theorem fitPassHeap_eq (env : FitEnv) (K cols : ℕ) (counts : List ℕ) (epoch : ℕ)
    (h : Heap) (xr pr : ℕ) :
    fitPassHeap env K cols counts epoch h xr pr
      = ((updateCentroidsHeap K cols counts
            (env.assign ⟨h.getD xr [], cols, counts⟩ (h.getD pr []))
            (env.sampler epoch) h xr pr).1
          ++ [(updateCentroidsHeap K cols counts
              (env.assign ⟨h.getD xr [], cols, counts⟩ (h.getD pr []))
              (env.sampler epoch) h xr pr).1.getD
            (updateCentroidsHeap K cols counts
              (env.assign ⟨h.getD xr [], cols, counts⟩ (h.getD pr []))
              (env.sampler epoch) h xr pr).2 []],
        (updateCentroidsHeap K cols counts
            (env.assign ⟨h.getD xr [], cols, counts⟩ (h.getD pr []))
            (env.sampler epoch) h xr pr).1.length,
        sqDiffSum
          ((updateCentroidsHeap K cols counts
              (env.assign ⟨h.getD xr [], cols, counts⟩ (h.getD pr []))
              (env.sampler epoch) h xr pr).1.getD pr [])
          ((updateCentroidsHeap K cols counts
              (env.assign ⟨h.getD xr [], cols, counts⟩ (h.getD pr []))
              (env.sampler epoch) h xr pr).1.getD
            (updateCentroidsHeap K cols counts
              (env.assign ⟨h.getD xr [], cols, counts⟩ (h.getD pr []))
              (env.sampler epoch) h xr pr).2 []),
        env.assign ⟨h.getD xr [], cols, counts⟩ (h.getD pr [])) := rfl

/-- C8: over one object-level fit pass, the DataMatrix cell is never mutated,
the previous CenterSet cell is never mutated, the inertia diff is computed
from the intact previous value against the freshly produced pure update
(no aliasing), and the reference stored back into `self._cluster_centers`
is a fresh cell — distinct from both input cells — holding exactly the
pure update's value. -/
theorem kmedians_C8 (env : FitEnv) (K cols : ℕ) (counts : List ℕ) (epoch : ℕ)
    (h : Heap) (xr pr : ℕ) (hxr : xr < h.length) (hpr : pr < h.length) :
    (fitPassHeap env K cols counts epoch h xr pr).1.getD xr [] = h.getD xr []
    ∧ (fitPassHeap env K cols counts epoch h xr pr).1.getD pr [] = h.getD pr []
    ∧ (fitPassHeap env K cols counts epoch h xr pr).2.1 ≠ xr
    ∧ (fitPassHeap env K cols counts epoch h xr pr).2.1 ≠ pr
    ∧ (fitPassHeap env K cols counts epoch h xr pr).2.2.1
        = sqDiffSum (h.getD pr [])
            (updateCentroids K ⟨h.getD xr [], cols, counts⟩
              (env.assign ⟨h.getD xr [], cols, counts⟩ (h.getD pr []))
              (h.getD pr []) (env.sampler epoch))
    ∧ (fitPassHeap env K cols counts epoch h xr pr).1.getD
          (fitPassHeap env K cols counts epoch h xr pr).2.1 []
        = updateCentroids K ⟨h.getD xr [], cols, counts⟩
            (env.assign ⟨h.getD xr [], cols, counts⟩ (h.getD pr []))
            (h.getD pr []) (env.sampler epoch) := by
  obtain ⟨u1, u2, u3, u4, u5⟩ := updateCentroidsHeap_spec K cols counts
    (env.assign ⟨h.getD xr [], cols, counts⟩ (h.getD pr [])) (env.sampler epoch)
    h xr pr hxr hpr
  rw [fitPassHeap_eq]
  refine ⟨?_, ?_, ?_, ?_, ?_, ?_⟩
  · rw [List.getD_append _ _ _ _ (by omega), u3]
  · rw [List.getD_append _ _ _ _ (by omega), u4]
  · show (updateCentroidsHeap K cols counts _ _ h xr pr).1.length ≠ xr
    omega
  · show (updateCentroidsHeap K cols counts _ _ h xr pr).1.length ≠ pr
    omega
  · show sqDiffSum _ _ = _
    rw [u4, u1, u5]
  · show (_ ++ [_]).getD (updateCentroidsHeap K cols counts _ _ h xr pr).1.length [] = _
    rw [List.getD_eq_getElem?_getD, List.getElem?_concat_length]
    show (updateCentroidsHeap K cols counts _ _ h xr pr).1.getD
      (updateCentroidsHeap K cols counts _ _ h xr pr).2 [] = _
    rw [u1, u5]

/-- C8 witness: a concrete two-cell heap (data rows and previous centers). -/
theorem kmedians_C8_witness :
    (fitPassHeap exampleEnv 2 1 [2] 0 [[[1], [2]], [[0], [9]]] 0 1).1.getD 0 []
        = ([[[1], [2]], [[0], [9]]] : Heap).getD 0 []
    ∧ (fitPassHeap exampleEnv 2 1 [2] 0 [[[1], [2]], [[0], [9]]] 0 1).1.getD 1 []
        = ([[[1], [2]], [[0], [9]]] : Heap).getD 1 []
    ∧ (fitPassHeap exampleEnv 2 1 [2] 0 [[[1], [2]], [[0], [9]]] 0 1).2.1 ≠ 0
    ∧ (fitPassHeap exampleEnv 2 1 [2] 0 [[[1], [2]], [[0], [9]]] 0 1).2.1 ≠ 1
    ∧ (fitPassHeap exampleEnv 2 1 [2] 0 [[[1], [2]], [[0], [9]]] 0 1).2.2.1
        = sqDiffSum (([[[1], [2]], [[0], [9]]] : Heap).getD 1 [])
            (updateCentroids 2 ⟨([[[1], [2]], [[0], [9]]] : Heap).getD 0 [], 1, [2]⟩
              (exampleEnv.assign ⟨([[[1], [2]], [[0], [9]]] : Heap).getD 0 [], 1, [2]⟩
                (([[[1], [2]], [[0], [9]]] : Heap).getD 1 []))
              (([[[1], [2]], [[0], [9]]] : Heap).getD 1 []) (exampleEnv.sampler 0))
    ∧ (fitPassHeap exampleEnv 2 1 [2] 0 [[[1], [2]], [[0], [9]]] 0 1).1.getD
          (fitPassHeap exampleEnv 2 1 [2] 0 [[[1], [2]], [[0], [9]]] 0 1).2.1 []
        = updateCentroids 2 ⟨([[[1], [2]], [[0], [9]]] : Heap).getD 0 [], 1, [2]⟩
            (exampleEnv.assign ⟨([[[1], [2]], [[0], [9]]] : Heap).getD 0 [], 1, [2]⟩
              (([[[1], [2]], [[0], [9]]] : Heap).getD 1 []))
            (([[[1], [2]], [[0], [9]]] : Heap).getD 1 []) (exampleEnv.sampler 0) :=
  kmedians_C8 exampleEnv 2 1 [2] 0 [[[1], [2]], [[0], [9]]] 0 1 (by decide) (by decide)

end KMediansModel
